import Mathlib

/-!
Verification of the client-side auction reconciliation logic of the
mkauction repository (a Nostr art-auction web client).

The relevant source functions are shallowly embedded as Lean functions:

* `validateAuctionEvent`, `useAuctionsQueryFn`, `useMyAuctionsQueryFn`
  (src/hooks/useAuctions.ts, kind-30020 listing validation and listing feed),
* `bidValid`, `useAuctionBidsQueryFn` (src/hooks/useAuctions.ts,
  `useAuctionBids`, kind-1021 bid filtering and ranking),
* `useAuctionBidConfirmationsFn`, `bidHistoryStatus`
  (src/hooks/useAuctions.ts `useAuctionBidConfirmations` composed with
  src/components/BidHistory.tsx `bidsWithMessages`),
* `processBidEvent`, `bidsByAuction`, `getCurrentBid`
  (src/pages/AuctionsPage.tsx `useAuctionCurrentBids` / `getCurrentBid`),
* `shouldExtendAuction`, `auctionEndTime`, `updateTimeLeftIsActive`,
  `isAuctionEnded` (src/components/AuctionManagement.tsx and
  src/components/AuctionCard.tsx),
* `reserveMetBadge` (src/components/AuctionCard.tsx and
  src/components/AuctionDetailView.tsx "Reserve Met" badges),
* `handleSendPaymentRequest` (SendPaymentRequestDialog),
* `bidDialogOnSubmit` (src/components/BidDialog.tsx `onSubmit`).

JSON payloads are modelled as already-decoded option-typed records: a
`none` content stands for a `JSON.parse` failure, and option-typed fields
stand for properties that may be absent from the decoded object.
JavaScript truthiness tests on numbers and strings are modelled as
"present and nonzero" respectively "present and nonempty".
`Array.prototype.sort` (stable, by comparator) is modelled as a stable
insertion sort on an integer key.
-/

/-- Decoded content of a kind-30020 auction listing event
(`AuctionData` in src/hooks/useAuctions.ts). Option-valued fields stand
for JSON properties that may be missing from the payload. -/
structure AuctionContent where
  id : Option String
  title : Option String
  starting_bid : Option Int
  reserve_price : Option Int
  start_date : Option Int
  duration : Option Int
  auto_extend : Bool
  extension_time : Option Int
  images : Option (List String)
  shipping_local_cost : Option Int
  shipping_international_cost : Option Int
deriving DecidableEq

/-- A kind-30020 listing event; `content = none` models a payload on which
`JSON.parse` throws. -/
structure ListingEvent where
  id : String
  pubkey : String
  kind : Nat
  created_at : Int
  content : Option AuctionContent
deriving DecidableEq

/-- Decoded content of a kind-1021 bid event (`BidData`). `amount = none`
models a missing or non-numeric `amount` property. -/
structure BidContent where
  amount : Option Int
  shipping_option : String
  buyer_country : String
  message : String
deriving DecidableEq

/-- A kind-1021 bid event. Tags are (name, value) pairs. -/
structure BidEvent where
  id : String
  pubkey : String
  created_at : Int
  tags : List (String × String)
  content : Option BidContent
deriving DecidableEq

/-- Decoded content of a kind-1022 bid confirmation event
(`BidConfirmationData`). -/
structure BidConfirmationContent where
  status : String
  message : Option String
  duration_extended : Option Int
  total_cost : Option Int
deriving DecidableEq

/-- A kind-1022 bid confirmation event. -/
structure ConfirmationEvent where
  id : String
  pubkey : String
  created_at : Int
  tags : List (String × String)
  content : Option BidConfirmationContent
deriving DecidableEq

/-! ### Stable descending sort on an integer key

`Array.prototype.sort` with comparator `(a, b) => key(b) - key(a)` is a
stable sort ordering the list by `key` descending; ties keep input order. -/

/-- Insert `a` into `l` before the first element whose key is not above
`key a`; elements with an equal key stay in front of `a` (stability). -/
def insertDescBy (key : α → Int) (a : α) : List α → List α
  | [] => [a]
  | b :: l => if key b ≤ key a then a :: b :: l else b :: insertDescBy key a l

/-- Stable sort by `key` descending, modelling a stable JS `sort` with
comparator `(a, b) => key(b) - key(a)`. -/
def sortDescBy (key : α → Int) : List α → List α
  | [] => []
  | a :: l => insertDescBy key a (sortDescBy key l)

/-- The list is ordered by `key` descending. -/
def SortedDescBy (key : α → Int) (l : List α) : Prop :=
  l.Pairwise (fun a b => key b ≤ key a)

theorem insertDescBy_perm (key : α → Int) (a : α) (l : List α) :
    (insertDescBy key a l).Perm (a :: l) := by
  induction l with
  | nil => simp [insertDescBy]
  | cons b l ih =>
      by_cases h : key b ≤ key a
      · simp [insertDescBy, h]
      · simp only [insertDescBy, h, if_false]
        exact ((ih.cons b).trans (List.Perm.swap a b l))

theorem sortDescBy_perm (key : α → Int) (l : List α) :
    (sortDescBy key l).Perm l := by
  induction l with
  | nil => simp [sortDescBy]
  | cons a l ih =>
      exact (insertDescBy_perm key a (sortDescBy key l)).trans (ih.cons a)

theorem mem_sortDescBy (key : α → Int) (l : List α) (x : α) :
    x ∈ sortDescBy key l ↔ x ∈ l :=
  (sortDescBy_perm key l).mem_iff

theorem sortedDescBy_insertDescBy (key : α → Int) (a : α) (l : List α)
    (h : SortedDescBy key l) : SortedDescBy key (insertDescBy key a l) := by
  induction l with
  | nil => simp [insertDescBy, SortedDescBy]
  | cons b l ih =>
      rcases List.pairwise_cons.mp h with ⟨hb, hl⟩
      by_cases hab : key b ≤ key a
      · simp only [insertDescBy, hab, if_true]
        refine List.pairwise_cons.mpr ⟨?_, h⟩
        intro x hx
        rcases List.mem_cons.mp hx with rfl | hx
        · exact hab
        · exact le_trans (hb x hx) hab
      · simp only [insertDescBy, hab, if_false]
        refine List.pairwise_cons.mpr ⟨?_, ih hl⟩
        intro x hx
        rcases List.mem_cons.mp ((insertDescBy_perm key a l).mem_iff.mp hx) with rfl | hx
        · exact le_of_not_le hab
        · exact hb x hx

theorem sortedDescBy_sortDescBy (key : α → Int) (l : List α) :
    SortedDescBy key (sortDescBy key l) := by
  induction l with
  | nil => simp [sortDescBy, SortedDescBy]
  | cons a l ih => exact sortedDescBy_insertDescBy key a (sortDescBy key l) ih

/-- `find?` on a list sorted by `key` descending returns a match of
maximal key: every match in the list has key at most the key of the
returned element. -/
theorem find?_sortedDescBy_max (key : α → Int) (p : α → Bool) (l : List α)
    (hs : SortedDescBy key l) (x : α) (hx : l.find? p = some x) :
    ∀ y ∈ l, p y = true → key y ≤ key x := by
  induction l with
  | nil => simp at hx
  | cons a l ih =>
      rcases List.pairwise_cons.mp hs with ⟨ha, hl⟩
      intro y hy hpy
      by_cases hpa : p a = true
      · rw [List.find?_cons_of_pos _ hpa] at hx
        cases hx
        rcases List.mem_cons.mp hy with rfl | hy
        · exact le_refl _
        · exact ha y hy
      · rw [List.find?_cons_of_neg _ hpa] at hx
        rcases List.mem_cons.mp hy with rfl | hy
        · exact absurd hpy hpa
        · exact ih hl hx y hy hpy

/-! ### Listing validation and the listing feeds (src/hooks/useAuctions.ts) -/

/-- JS truthiness of a possibly-missing string property. -/
def truthyStr : Option String → Bool
  | none => false
  | some s => !(s = "")

/-- JS truthiness of a possibly-missing numeric property. -/
def truthyNum : Option Int → Bool
  | none => false
  | some n => !(n = 0)

/-- `validateAuctionEvent` (src/hooks/useAuctions.ts, lines 31-57): kind
must be 30020, the payload must decode, the required fields must be
truthy, `images` must be a non-empty array, and both shipping cost
fields must not be `undefined`. -/
def validateAuctionEvent (event : ListingEvent) : Bool :=
  if event.kind ≠ 30020 then false
  else
    match event.content with
    | none => false
    | some data =>
        if !truthyStr data.id || !truthyStr data.title || !truthyNum data.starting_bid
            || !truthyNum data.start_date || !truthyNum data.duration then false
        else if (match data.images with
                 | none => true
                 | some imgs => imgs.isEmpty) then false
        else if !data.shipping_local_cost.isSome
            || !data.shipping_international_cost.isSome then false
        else true

/-- The `useAuctions` query body (src/hooks/useAuctions.ts, lines 64-72):
filter by `validateAuctionEvent`, then sort by `created_at` descending. -/
def useAuctionsQueryFn (events : List ListingEvent) : List ListingEvent :=
  sortDescBy (fun e => e.created_at) (events.filter validateAuctionEvent)

/-- The `useMyAuctions` query body (src/hooks/useAuctions.ts, lines
187-200): the author restriction lives in the relay query filter; the
client-side step is the same filter-and-sort as `useAuctions`. -/
def useMyAuctionsQueryFn (events : List ListingEvent) : List ListingEvent :=
  sortDescBy (fun e => e.created_at) (events.filter validateAuctionEvent)

/-! ### Bid filtering and ranking (`useAuctionBids`) -/

/-- Validity test in the `useAuctionBids` filter: the decoded payload must
have a numeric `amount > 0` (src/hooks/useAuctions.ts, lines 141-148). -/
def bidValid (event : BidEvent) : Bool :=
  match event.content with
  | none => false
  | some bidData =>
      match bidData.amount with
      | none => false
      | some a => decide (0 < a)

/-- The amount used by the `useAuctionBids` sort comparator
(`JSON.parse(a.content).amount`); for bids that passed the validity
filter this is the decoded positive amount. -/
def bidAmount (event : BidEvent) : Int :=
  match event.content with
  | none => 0
  | some bidData => bidData.amount.getD 0

/-- The `useAuctionBids` query body (src/hooks/useAuctions.ts, lines
139-153): keep bids whose decoded amount is a number `> 0`, then sort by
amount descending (stable sort; the comparator looks only at `amount`). -/
def useAuctionBidsQueryFn (events : List BidEvent) : List BidEvent :=
  sortDescBy bidAmount (events.filter bidValid)

/-! ### Bid confirmations and effective bid status
(`useAuctionBidConfirmations` composed with `BidHistory.tsx`) -/

/-- The `useAuctionBidConfirmations` query body (src/hooks/useAuctions.ts,
line 174): sort the kind-1022 events by `created_at` descending. -/
def useAuctionBidConfirmationsFn (events : List ConfirmationEvent) :
    List ConfirmationEvent :=
  sortDescBy (fun e => e.created_at) events

/-- Tag test from BidHistory.tsx lines 163-165: the confirmation carries
an `e` tag whose value is the bid event id. -/
def confMatchesBid (conf : ConfirmationEvent) (bidId : String) : Bool :=
  conf.tags.any (fun tag => tag.1 == "e" && tag.2 == bidId)

/-- BidHistory.tsx line 163: `confirmations?.find(...)` over the
(already sorted) confirmation list. -/
def bidHistoryConfirmation (confirmations : List ConfirmationEvent)
    (bid : BidEvent) : Option ConfirmationEvent :=
  confirmations.find? (fun conf => confMatchesBid conf bid.id)

/-- Effective status computed in BidHistory.tsx lines 167-204: the
decoded `status` of the found confirmation, or `pending` when no
confirmation was found or its payload fails to parse. -/
def bidHistoryStatus (confirmations : List ConfirmationEvent)
    (bid : BidEvent) : String :=
  match bidHistoryConfirmation confirmations bid with
  | none => "pending"
  | some confirmation =>
      match confirmation.content with
      | none => "pending"
      | some confirmationData => confirmationData.status

/-- The status a confirmation event contributes: its decoded `status`, or
`pending` when its payload fails to parse. -/
def confContentStatus (conf : ConfirmationEvent) : String :=
  match conf.content with
  | none => "pending"
  | some confirmationData => confirmationData.status

/-- Full BidHistory pipeline: raw kind-1022 query results are sorted by
`useAuctionBidConfirmations`, then correlated per bid. -/
def bidHistoryEffectiveStatus (confEvents : List ConfirmationEvent)
    (bid : BidEvent) : String :=
  bidHistoryStatus (useAuctionBidConfirmationsFn confEvents) bid

/-- Modelled from the spec (confirmation correlation, spec section 4.1):
among the confirmation events authored by the listing seller that tag the
bid event id, the one with the greatest `createdAt` decides the status;
`pending` when none exists. This definition follows the wording of the
spec and is compared against the code-derived `bidHistoryEffectiveStatus`. -/
def specSellerLatestStatus (sellerPubkey : String)
    (confEvents : List ConfirmationEvent) (bid : BidEvent) : String :=
  match (sortDescBy (fun e => e.created_at)
      (confEvents.filter
        (fun c => c.pubkey == sellerPubkey && confMatchesBid c bid.id))).head? with
  | none => "pending"
  | some conf => confContentStatus conf

/-! ### Concrete fixtures used by counterexamples and witnesses -/

/-- A fully valid decoded listing payload (stable id `a1`, starting bid
1000, start 1000, duration 3600, auto-extend on, extension time 300). -/
def exContentA1 : AuctionContent :=
  ⟨some "a1", some "Artwork", some 1000, none, some 1000, some 3600, true,
    some 300, some ["img"], some 10, some 20⟩

/-- Builds a valid kind-30020 listing event by author `seller` carrying
`exContentA1`. -/
def mkValidListing (i : String) (t : Int) : ListingEvent :=
  ⟨i, "seller", 30020, t, some exContentA1⟩

/-- Earlier listing event for the pair (`a1`, `alice`). -/
def exListingOld : ListingEvent := ⟨"evOld", "alice", 30020, 10, some exContentA1⟩

/-- Later listing event for the same pair (`a1`, `alice`). -/
def exListingNew : ListingEvent := ⟨"evNew", "alice", 30020, 20, some exContentA1⟩

/-- A listing event whose payload fails to decode. -/
def exBadListing : ListingEvent := ⟨"evBad", "seller", 30020, 100, none⟩

/-- Builds a kind-1021 bid event on auction event `auc1`. -/
def mkBid (i : String) (amount : Int) (t : Int) : BidEvent :=
  ⟨i, "bidder", t, [("e", "auc1")], some ⟨some amount, "local", "US", ""⟩⟩

/-- Tied bid with the later `created_at`, listed first by the relay. -/
def exTieBidLate : BidEvent := mkBid "b1" 100 20

/-- Tied bid with the earlier `created_at`, listed second by the relay. -/
def exTieBidEarly : BidEvent := mkBid "b2" 100 10

/-- A listing event whose seller is the pubkey `seller`. -/
def exAuction : ListingEvent := mkValidListing "auc1" 5

/-- A bid on `exAuction` with event id `bid1`. -/
def exBid : BidEvent := mkBid "bid1" 500 50

/-- Confirmation of `exBid` authored by the listing seller
(status `accepted`, `created_at` 10). -/
def exConfSeller : ConfirmationEvent :=
  ⟨"c1", "seller", 10, [("e", "bid1"), ("e", "auc1"), ("p", "bidder")],
    some ⟨"accepted", none, none, none⟩⟩

/-- Confirmation of `exBid` authored by a third party, not the seller
(status `rejected`, `created_at` 20). -/
def exConfOther : ConfirmationEvent :=
  ⟨"c2", "mallory", 20, [("e", "bid1"), ("e", "auc1"), ("p", "bidder")],
    some ⟨"rejected", none, none, none⟩⟩

/-! ### Claim C1 -/

/-- C1 counterexample: with a seller confirmation (`accepted`, t=10) and a
later third-party confirmation (`rejected`, t=20) both tagging the bid,
the claim says the effective status is the seller one (`accepted`), but
the BidHistory pipeline picks the latest confirmation regardless of
author and reports `rejected`. -/
theorem bidHistory_seller_filter_counterexample :
    exConfSeller.pubkey = exAuction.pubkey ∧
    exConfOther.pubkey ≠ exAuction.pubkey ∧
    specSellerLatestStatus exAuction.pubkey [exConfSeller, exConfOther] exBid
      = "accepted" ∧
    bidHistoryEffectiveStatus [exConfSeller, exConfOther] exBid = "rejected" ∧
    bidHistoryEffectiveStatus [exConfSeller, exConfOther] exBid ≠
      specSellerLatestStatus exAuction.pubkey [exConfSeller, exConfOther] exBid := by
  decide

/-- C1 (amended): the BidHistory pipeline resolves a bid's effective
status to the `status` of a confirmation event with the greatest
`createdAt` among ALL confirmation events tagging the bid's event id,
regardless of author (`pending` when its payload fails to parse), and to
`pending` when no confirmation tags the bid. -/
theorem bidHistory_status_latest_any_author
    (confEvents : List ConfirmationEvent) (bid : BidEvent) :
    (bidHistoryEffectiveStatus confEvents bid = "pending" ∧
      ∀ c ∈ confEvents, ¬confMatchesBid c bid.id = true) ∨
    (∃ c ∈ confEvents, confMatchesBid c bid.id = true ∧
      (∀ c' ∈ confEvents, confMatchesBid c' bid.id = true →
        c'.created_at ≤ c.created_at) ∧
      bidHistoryEffectiveStatus confEvents bid = confContentStatus c) := by
  cases hf : (useAuctionBidConfirmationsFn confEvents).find?
      (fun conf => confMatchesBid conf bid.id) with
  | none =>
      left
      constructor
      · simp [bidHistoryEffectiveStatus, bidHistoryStatus,
          bidHistoryConfirmation, hf]
      · intro c hc
        exact List.find?_eq_none.mp hf c
          ((mem_sortDescBy _ confEvents c).mpr hc)
  | some c =>
      right
      refine ⟨c, ?_, ?_, ?_, ?_⟩
      · exact (mem_sortDescBy _ confEvents c).mp (List.mem_of_find?_eq_some hf)
      · have hp := List.find?_some hf
        exact hp
      · intro c' hc' hp
        exact find?_sortedDescBy_max (fun e => e.created_at) _ _
          (sortedDescBy_sortDescBy _ _) c hf c'
          ((mem_sortDescBy _ confEvents c').mpr hc') hp
      · simp only [bidHistoryEffectiveStatus, bidHistoryStatus,
          bidHistoryConfirmation, hf, confContentStatus]

/-- C1 witness: the amended characterization instantiated at the concrete
confirmation pair of the counterexample. -/
theorem bidHistory_status_latest_any_author_witness :
    (bidHistoryEffectiveStatus [exConfSeller, exConfOther] exBid = "pending" ∧
      ∀ c ∈ [exConfSeller, exConfOther], ¬confMatchesBid c exBid.id = true) ∨
    (∃ c ∈ [exConfSeller, exConfOther], confMatchesBid c exBid.id = true ∧
      (∀ c' ∈ [exConfSeller, exConfOther], confMatchesBid c' exBid.id = true →
        c'.created_at ≤ c.created_at) ∧
      bidHistoryEffectiveStatus [exConfSeller, exConfOther] exBid
        = confContentStatus c) :=
  bidHistory_status_latest_any_author [exConfSeller, exConfOther] exBid

/-! ### Claim C2 -/

/-- C2 counterexample: two valid listing events by the same author with
the same stable `id` both survive reconciliation; the view has both, not
exactly one. -/
theorem useAuctions_no_dedup_counterexample :
    validateAuctionEvent exListingOld = true ∧
    validateAuctionEvent exListingNew = true ∧
    exListingOld.pubkey = exListingNew.pubkey ∧
    exListingOld.content.bind AuctionContent.id
      = exListingNew.content.bind AuctionContent.id ∧
    useAuctionsQueryFn [exListingOld, exListingNew]
      = [exListingNew, exListingOld] ∧
    (useAuctionsQueryFn [exListingOld, exListingNew]).length ≠ 1 := by
  decide

/-- C2 (amended): the reconciled views of `useAuctions` and
`useMyAuctions` contain every valid listing event, ordered by
`created_at` descending; no client-side last-write-wins selection by
`auctionId`+author is performed, so superseded earlier events remain in
the view (the newest merely sorts first). -/
theorem useAuctions_filter_sort (events : List ListingEvent) :
    (useAuctionsQueryFn events).Perm (events.filter validateAuctionEvent) ∧
    SortedDescBy (fun e => e.created_at) (useAuctionsQueryFn events) ∧
    (useMyAuctionsQueryFn events).Perm (events.filter validateAuctionEvent) ∧
    SortedDescBy (fun e => e.created_at) (useMyAuctionsQueryFn events) :=
  ⟨sortDescBy_perm _ _, sortedDescBy_sortDescBy _ _,
    sortDescBy_perm _ _, sortedDescBy_sortDescBy _ _⟩

/-! ### Claim C3 -/

/-- C3 counterexample: two valid bids with equal amounts, the
later-created one first in relay order; the claim says ties are broken by
earlier `createdAt` (earlier bid first), but the stable amount-only sort
keeps the relay order. -/
theorem useAuctionBids_tie_counterexample :
    bidAmount exTieBidLate = bidAmount exTieBidEarly ∧
    exTieBidEarly.created_at < exTieBidLate.created_at ∧
    useAuctionBidsQueryFn [exTieBidLate, exTieBidEarly]
      = [exTieBidLate, exTieBidEarly] ∧
    useAuctionBidsQueryFn [exTieBidLate, exTieBidEarly]
      ≠ [exTieBidEarly, exTieBidLate] := by
  decide

/-- C3 (amended): the ranked bid list contains exactly the bids whose
decoded amount is a number `> 0`, ordered by amount descending; ties keep
the relay-supplied input order (stable sort), not the earlier
`createdAt`. The concrete amounts [100, 500, 300] at increasing
timestamps still rank as [500, 300, 100]. -/
theorem useAuctionBids_ranking (events : List BidEvent) :
    (useAuctionBidsQueryFn events).Perm (events.filter bidValid) ∧
    SortedDescBy bidAmount (useAuctionBidsQueryFn events) ∧
    useAuctionBidsQueryFn [mkBid "r1" 100 1, mkBid "r2" 500 2, mkBid "r3" 300 3]
      = [mkBid "r2" 500 2, mkBid "r3" 300 3, mkBid "r1" 100 1] :=
  ⟨sortDescBy_perm _ _, sortedDescBy_sortDescBy _ _, by decide⟩

/-! ### Claim C8 -/

/-- A batch of nine valid listing events and one whose payload does not
decode. -/
def exBatch : List ListingEvent :=
  [mkValidListing "e1" 1, mkValidListing "e2" 2, mkValidListing "e3" 3,
   mkValidListing "e4" 4, exBadListing, mkValidListing "e5" 5,
   mkValidListing "e6" 6, mkValidListing "e7" 7, mkValidListing "e8" 8,
   mkValidListing "e9" 9]

/-- C8: reconciliation of a batch of raw listing events is a total
function (no exception can escape); invalid events are exactly the ones
dropped, every valid event of the batch survives into the reconciled
view (the view is a permutation of the valid events), and the concrete
batch of nine valid events plus one undecodable payload reconciles to
exactly nine auctions. -/
theorem useAuctions_malformed_resilience (events : List ListingEvent) :
    (useAuctionsQueryFn events).Perm (events.filter validateAuctionEvent) ∧
    (useAuctionsQueryFn events).length = events.countP validateAuctionEvent ∧
    (useAuctionsQueryFn exBatch).length = 9 := by
  refine ⟨sortDescBy_perm _ _, ?_, by decide⟩
  simp only [useAuctionsQueryFn]
  rw [(sortDescBy_perm _ _).length_eq, List.countP_eq_length_filter]

/-! ### Current bid per auction (src/pages/AuctionsPage.tsx) -/

/-- Per-auction record kept by `useAuctionCurrentBids`: highest amount
seen and bid count. -/
structure BidInfo where
  amount : Int
  count : Nat
deriving DecidableEq

/-- Lookup in the `bidsByAuction` record (`bidsByAuction[auctionId]`). -/
def lookupInfo : List (String × BidInfo) → String → Option BidInfo
  | [], _ => none
  | (k, v) :: rest, key => if k = key then some v else lookupInfo rest key

/-- Update of the `bidsByAuction` record (`bidsByAuction[auctionId] = ...`). -/
def setInfo : List (String × BidInfo) → String → BidInfo → List (String × BidInfo)
  | [], key, v => [(key, v)]
  | (k, w) :: rest, key, v =>
      if k = key then (k, v) :: rest else (k, w) :: setInfo rest key v

/-- `event.tags.find(([name]) => name === 'e')?.[1]` : the value of the
first `e` tag of a bid event. -/
def bidFirstETag (e : BidEvent) : Option String :=
  (e.tags.find? (fun tag => tag.1 == "e")).map (fun tag => tag.2)

/-- The decoded amount of a bid event when it is a number `> 0`
(the `typeof bidData.amount !== 'number' || bidData.amount <= 0` guard). -/
def bidEventValidAmount (e : BidEvent) : Option Int :=
  match e.content with
  | none => none
  | some bidData =>
      match bidData.amount with
      | none => none
      | some a => if a ≤ 0 then none else some a

/-- One step of the `events.forEach` loop of `useAuctionCurrentBids`
(src/pages/AuctionsPage.tsx, lines 37-56): skip events without a truthy
first `e` tag or without a valid amount; otherwise create or update the
per-auction record (new maximum, incremented count). -/
def processBidEvent (acc : List (String × BidInfo)) (e : BidEvent) :
    List (String × BidInfo) :=
  match bidFirstETag e with
  | none => acc
  | some auctionId =>
      if auctionId = "" then acc
      else
        match bidEventValidAmount e with
        | none => acc
        | some a =>
            match lookupInfo acc auctionId with
            | none => setInfo acc auctionId ⟨a, 1⟩
            | some info =>
                setInfo acc auctionId
                  ⟨if info.amount < a then a else info.amount, info.count + 1⟩

/-- The whole `useAuctionCurrentBids` aggregation over a batch of bid
events. -/
def bidsByAuction (events : List BidEvent) : List (String × BidInfo) :=
  events.foldl processBidEvent []

/-- The starting-bid fallback of `getCurrentBid`
(src/pages/AuctionsPage.tsx, lines 96-106): locate the auction event and
return its decoded `starting_bid`, or 0 when it is absent or does not
parse. -/
def getStartingBidFallback (auctions : List ListingEvent)
    (auctionEventId : String) : Int :=
  match auctions.find? (fun a => a.id == auctionEventId) with
  | none => 0
  | some auction =>
      match auction.content with
      | none => 0
      | some data => data.starting_bid.getD 0

/-- `getCurrentBid` (src/pages/AuctionsPage.tsx, lines 91-107): the
aggregated highest amount when positive, else the starting-bid fallback. -/
def getCurrentBid (auctions : List ListingEvent)
    (currentBids : List (String × BidInfo)) (auctionEventId : String) : Int :=
  match lookupInfo currentBids auctionEventId with
  | some bidInfo =>
      if 0 < bidInfo.amount then bidInfo.amount
      else getStartingBidFallback auctions auctionEventId
  | none => getStartingBidFallback auctions auctionEventId

/-- The amount a single bid event contributes to auction
`auctionEventId` in the `useAuctionCurrentBids` loop, if any. -/
def eventAmountFor (auctionEventId : String) (e : BidEvent) : Option Int :=
  match bidFirstETag e with
  | none => none
  | some auctionId =>
      if auctionId = "" then none
      else if auctionId = auctionEventId then bidEventValidAmount e else none

/-- All amounts of valid bids on `auctionEventId` in a batch, in batch
order. -/
def validAmountsFor (auctionEventId : String) (events : List BidEvent) :
    List Int :=
  events.filterMap (eventAmountFor auctionEventId)

/-- One abstract update of a per-auction record by a new amount. -/
def stepInfo (o : Option BidInfo) (a : Int) : Option BidInfo :=
  match o with
  | none => some ⟨a, 1⟩
  | some info => some ⟨if info.amount < a then a else info.amount, info.count + 1⟩

/-- Iterated abstract update. -/
def stepInfoList (o : Option BidInfo) : List Int → Option BidInfo
  | [] => o
  | a :: rest => stepInfoList (stepInfo o a) rest

theorem lookupInfo_setInfo_self (acc : List (String × BidInfo)) (k : String)
    (v : BidInfo) : lookupInfo (setInfo acc k v) k = some v := by
  induction acc with
  | nil => simp [setInfo, lookupInfo]
  | cons p rest ih =>
      obtain ⟨k2, w⟩ := p
      by_cases h : k2 = k <;> simp [setInfo, lookupInfo, h, ih]

theorem lookupInfo_setInfo_other (acc : List (String × BidInfo))
    (k key : String) (v : BidInfo) (h : k ≠ key) :
    lookupInfo (setInfo acc k v) key = lookupInfo acc key := by
  induction acc with
  | nil => simp [setInfo, lookupInfo, h]
  | cons p rest ih =>
      obtain ⟨k2, w⟩ := p
      by_cases h2 : k2 = k
      · subst h2
        simp [setInfo, lookupInfo, h]
      · by_cases h3 : k2 = key
        · subst h3
          simp [setInfo, lookupInfo, h2, Ne.symm h]
        · simp [setInfo, lookupInfo, h2, h3, ih]

theorem lookupInfo_processBidEvent (acc : List (String × BidInfo))
    (e : BidEvent) (auctionEventId : String) :
    lookupInfo (processBidEvent acc e) auctionEventId =
      match eventAmountFor auctionEventId e with
      | none => lookupInfo acc auctionEventId
      | some a => stepInfo (lookupInfo acc auctionEventId) a := by
  unfold processBidEvent eventAmountFor
  cases htag : bidFirstETag e with
  | none => simp
  | some auctionId =>
      by_cases hempty : auctionId = ""
      · simp [hempty]
      · cases hamt : bidEventValidAmount e with
        | none => simp [hempty]
        | some a =>
            by_cases heq : auctionId = auctionEventId
            · subst heq
              cases hlook : lookupInfo acc auctionId with
              | none => simp [hempty, hlook, stepInfo, lookupInfo_setInfo_self]
              | some info => simp [hempty, hlook, stepInfo, lookupInfo_setInfo_self]
            · cases hlook : lookupInfo acc auctionId with
              | none => simp [hempty, heq, hlook, lookupInfo_setInfo_other _ _ _ _ heq]
              | some info => simp [hempty, heq, hlook, lookupInfo_setInfo_other _ _ _ _ heq]

theorem lookupInfo_foldl_processBidEvent (events : List BidEvent)
    (acc : List (String × BidInfo)) (auctionEventId : String) :
    lookupInfo (events.foldl processBidEvent acc) auctionEventId =
      stepInfoList (lookupInfo acc auctionEventId)
        (validAmountsFor auctionEventId events) := by
  induction events generalizing acc with
  | nil => simp [validAmountsFor, stepInfoList]
  | cons e events ih =>
      rw [List.foldl_cons, ih]
      unfold validAmountsFor
      rw [List.filterMap_cons]
      cases hamt : eventAmountFor auctionEventId e with
      | none =>
          have := lookupInfo_processBidEvent acc e auctionEventId
          rw [hamt] at this
          simp [validAmountsFor, this]
      | some a =>
          have := lookupInfo_processBidEvent acc e auctionEventId
          rw [hamt] at this
          simp [validAmountsFor, stepInfoList, this]

theorem bidEventValidAmount_pos (e : BidEvent) (a : Int)
    (h : bidEventValidAmount e = some a) : 0 < a := by
  unfold bidEventValidAmount at h
  split at h
  · exact Option.noConfusion h
  · split at h
    · exact Option.noConfusion h
    · split at h
      · exact Option.noConfusion h
      · injection h with h2
        omega

theorem eventAmountFor_pos (auctionEventId : String) (e : BidEvent) (a : Int)
    (h : eventAmountFor auctionEventId e = some a) : 0 < a := by
  unfold eventAmountFor at h
  split at h
  · exact Option.noConfusion h
  · split at h
    · exact Option.noConfusion h
    · split at h
      · exact bidEventValidAmount_pos e a h
      · exact Option.noConfusion h

theorem validAmountsFor_pos (auctionEventId : String) (events : List BidEvent) :
    ∀ a ∈ validAmountsFor auctionEventId events, 0 < a := by
  intro a ha
  obtain ⟨e, _, hfe⟩ := List.mem_filterMap.mp ha
  exact eventAmountFor_pos auctionEventId e a hfe

theorem stepInfoList_some_spec (amounts : List Int) (info : BidInfo) :
    ∃ info2, stepInfoList (some info) amounts = some info2 ∧
      info.amount ≤ info2.amount ∧
      (info2.amount = info.amount ∨ info2.amount ∈ amounts) ∧
      (∀ a ∈ amounts, a ≤ info2.amount) ∧
      info2.count = info.count + amounts.length := by
  induction amounts generalizing info with
  | nil => exact ⟨info, rfl, le_refl _, Or.inl rfl, by simp, by simp⟩
  | cons a rest ih =>
      obtain ⟨info2, hrun, hle, hmem, hmax, hcount⟩ :=
        ih ⟨if info.amount < a then a else info.amount, info.count + 1⟩
      refine ⟨info2, ?_, ?_, ?_, ?_, ?_⟩
      · simpa [stepInfoList, stepInfo] using hrun
      · refine le_trans ?_ hle
        simp only
        split <;> omega
      · rcases hmem with he | hm
        · simp only at he
          by_cases hcase : info.amount < a
          · simp [hcase] at he
            exact Or.inr (by simp [he])
          · simp [hcase] at he
            exact Or.inl he
        · exact Or.inr (List.mem_cons_of_mem a hm)
      · intro b hb
        rcases List.mem_cons.mp hb with rfl | hb
        · refine le_trans ?_ hle
          simp only
          split <;> omega
        · exact hmax b hb
      · simp only at hcount
        simp [hcount]
        omega

theorem stepInfoList_none_spec (amounts : List Int) (h : amounts ≠ []) :
    ∃ info2, stepInfoList none amounts = some info2 ∧
      info2.amount ∈ amounts ∧ (∀ a ∈ amounts, a ≤ info2.amount) ∧
      info2.count = amounts.length := by
  cases amounts with
  | nil => exact absurd rfl h
  | cons a rest =>
      obtain ⟨info2, hrun, hle, hmem, hmax, hcount⟩ :=
        stepInfoList_some_spec rest ⟨a, 1⟩
      refine ⟨info2, ?_, ?_, ?_, ?_⟩
      · simpa [stepInfoList, stepInfo] using hrun
      · rcases hmem with he | hm
        · simp only at he
          simp [he]
        · exact List.mem_cons_of_mem a hm
      · intro b hb
        rcases List.mem_cons.mp hb with rfl | hb
        · simpa using hle
        · exact hmax b hb
      · simp only at hcount
        simp [hcount]
        omega

theorem lookupInfo_bidsByAuction (events : List BidEvent) (aid : String) :
    lookupInfo (bidsByAuction events) aid
      = stepInfoList none (validAmountsFor aid events) := by
  unfold bidsByAuction
  rw [lookupInfo_foldl_processBidEvent]
  rfl

/-! ### Claim C4 -/

/-- C4 counterexample: the auction starts at 1000 sats; with no bids the
current price is the starting bid 1000, and adding a single valid 1-sat
bid drops the current price to 1, below the starting bid. This refutes
both "currentPrice ≥ startingBid for all bid sets" and "adding a bid
never decreases currentPrice". -/
theorem getCurrentBid_monotonic_counterexample :
    getCurrentBid [exAuction] (bidsByAuction []) "auc1" = 1000 ∧
    bidValid (mkBid "low" 1 60) = true ∧
    getCurrentBid [exAuction] (bidsByAuction [mkBid "low" 1 60]) "auc1" = 1 ∧
    (1 : Int) < 1000 := by
  decide

/-- C4 (amended): the current price equals the maximum valid bid amount
for the auction when at least one valid bid exists and the starting-bid
fallback otherwise, and adding a bid to a bid set that already has a
valid bid never decreases the current price. (Adding a bid below the
starting bid to an empty bid set can decrease it, as the counterexample
shows.) -/
theorem getCurrentBid_max_valid_or_starting (auctions : List ListingEvent)
    (events : List BidEvent) (e : BidEvent) (aid : String) :
    (validAmountsFor aid events = [] →
      getCurrentBid auctions (bidsByAuction events) aid
        = getStartingBidFallback auctions aid) ∧
    (validAmountsFor aid events ≠ [] →
      getCurrentBid auctions (bidsByAuction events) aid
          ∈ validAmountsFor aid events ∧
      ∀ a ∈ validAmountsFor aid events,
        a ≤ getCurrentBid auctions (bidsByAuction events) aid) ∧
    (validAmountsFor aid events ≠ [] →
      getCurrentBid auctions (bidsByAuction events) aid
        ≤ getCurrentBid auctions (bidsByAuction (events ++ [e])) aid) := by
  have hval : ∀ evs : List BidEvent, validAmountsFor aid evs ≠ [] →
      getCurrentBid auctions (bidsByAuction evs) aid ∈ validAmountsFor aid evs ∧
      ∀ a ∈ validAmountsFor aid evs,
        a ≤ getCurrentBid auctions (bidsByAuction evs) aid := by
    intro evs hne
    obtain ⟨info2, hrun, hmem, hmax, _⟩ := stepInfoList_none_spec _ hne
    have hlook : lookupInfo (bidsByAuction evs) aid = some info2 :=
      (lookupInfo_bidsByAuction evs aid).trans hrun
    have hpos : 0 < info2.amount := validAmountsFor_pos aid evs _ hmem
    have hcur : getCurrentBid auctions (bidsByAuction evs) aid = info2.amount := by
      simp [getCurrentBid, hlook, hpos]
    rw [hcur]
    exact ⟨hmem, hmax⟩
  refine ⟨?_, hval events, ?_⟩
  · intro hempty
    have hlook : lookupInfo (bidsByAuction events) aid = none := by
      rw [lookupInfo_bidsByAuction, hempty]
      rfl
    simp [getCurrentBid, hlook]
  · intro hne
    have happ : validAmountsFor aid (events ++ [e])
        = validAmountsFor aid events ++ validAmountsFor aid [e] := by
      simp [validAmountsFor]
    have hne2 : validAmountsFor aid (events ++ [e]) ≠ [] := by
      rw [happ]
      intro hcontra
      exact hne (List.append_eq_nil.mp hcontra).1
    obtain ⟨hmem1, _⟩ := hval events hne
    obtain ⟨_, hmax2⟩ := hval (events ++ [e]) hne2
    refine hmax2 _ ?_
    rw [happ]
    exact List.mem_append_left _ hmem1

/-- C4 witness: with one valid 700-sat bid present, adding a 900-sat bid
does not decrease the current price. -/
theorem getCurrentBid_max_valid_or_starting_witness :
    validAmountsFor "auc1" [mkBid "w1" 700 1] ≠ [] ∧
    getCurrentBid [exAuction] (bidsByAuction [mkBid "w1" 700 1]) "auc1"
      ≤ getCurrentBid [exAuction]
          (bidsByAuction ([mkBid "w1" 700 1] ++ [mkBid "w2" 900 2])) "auc1" :=
  ⟨by decide,
    (getCurrentBid_max_valid_or_starting [exAuction] [mkBid "w1" 700 1]
      (mkBid "w2" 900 2) "auc1").2.2 (by decide)⟩

/-! ### Lifecycle timing (AuctionCard.tsx, AuctionManagement.tsx) -/

/-- The end time every timing check derives:
`auctionData.start_date + auctionData.duration` (AuctionCard.tsx line 66,
AuctionManagement.tsx line 87). It is a function of the listing alone;
no bid enters it. -/
def auctionEndTime (d : AuctionContent) : Int :=
  d.start_date.getD 0 + d.duration.getD 0

/-- `updateTimeLeft` (AuctionCard.tsx lines 64-89): `isActive` is set to
false exactly when `remaining = endTime - now <= 0`. -/
def updateTimeLeftIsActive (d : AuctionContent) (now : Int) : Bool :=
  decide (0 < auctionEndTime d - now)

/-- The `isAuctionEnded` effect (AuctionManagement.tsx lines 85-89):
`now > endTime`, a strict comparison. -/
def isAuctionEnded (d : AuctionContent) (now : Int) : Bool :=
  decide (auctionEndTime d < now)

/-- `shouldExtendAuction` (AuctionManagement.tsx lines 164-170): requires
`auto_extend` and wall-clock `now` within the last 300 seconds before the
end, strictly before the end. The listing's own `extension_time` is not
consulted and neither is any bid timestamp. -/
def shouldExtendAuction (d : AuctionContent) (now : Int) : Bool :=
  if !d.auto_extend then false
  else
    decide (auctionEndTime d - now ≤ 300) && decide (0 < auctionEndTime d - now)

/-- The `durationExtended` argument computed by `handleConfirmBid`
(AuctionManagement.tsx line 100): only set on an `accepted` confirmation
while `shouldExtendAuction` holds, to the dialog's `extendTime` value; it
is stored in the published confirmation event and displayed, never added
to any end time. -/
def handleConfirmBidDurationExtended (d : AuctionContent) (now : Int)
    (statusArg : String) (extendTime : Int) : Option Int :=
  if statusArg == "accepted" && shouldExtendAuction d now then some extendTime
  else none

/-! ### Claim C5 -/

/-- C5: evaluation at the failing input. For the listing with
`start_date = 1000`, `duration = 3600`, `auto_extend = true`,
`extension_time = 300` and a qualifying highest bid at `createdAt = 4400`
the spec promises an effective end of 4700, so the auction would still be
active at `now = 4650`; the code derives the end time from the listing
alone (4600, independent of every bid), reports the auction ended at
4650, and `handleConfirmBid` merely records the dialog's `extendTime` in
the confirmation event. -/
theorem autoExtend_never_recomputes_end :
    auctionEndTime exContentA1 = 4600 ∧
    shouldExtendAuction exContentA1 4400 = true ∧
    shouldExtendAuction exContentA1 4000 = false ∧
    handleConfirmBidDurationExtended exContentA1 4400 "accepted" 300
      = some 300 ∧
    updateTimeLeftIsActive exContentA1 4650 = false ∧
    isAuctionEnded exContentA1 4650 = true ∧
    (4600 : Int) ≠ 4700 := by
  decide

/-! ### Claim C6 -/

/-- C6 counterexample: at exactly `now = startDate + duration` (4600) the
claim says the state is `ended` (inclusive boundary), but the
AuctionManagement ended flag uses the strict `now > endTime` and still
reports not-ended there, while the card countdown already reports ended. -/
theorem lifecycle_boundary_counterexample :
    auctionEndTime exContentA1 = 4600 ∧
    isAuctionEnded exContentA1 4600 = false ∧
    updateTimeLeftIsActive exContentA1 4600 = false := by
  decide

/-- C6 (amended): the card countdown (`updateTimeLeft`) uses the
inclusive boundary — active exactly when `now < startDate + duration`,
ended when `now ≥ startDate + duration`; the AuctionManagement ended flag
is strict — true exactly when `now > startDate + duration`, so at exactly
the end time it still reports not-ended. -/
theorem lifecycle_boundaries (d : AuctionContent) (now : Int) :
    (updateTimeLeftIsActive d now = true ↔ now < auctionEndTime d) ∧
    (isAuctionEnded d now = true ↔ auctionEndTime d < now) := by
  constructor
  · simp [updateTimeLeftIsActive]
  · simp [isAuctionEnded]

/-! ### Reserve-met badge (AuctionCard.tsx, AuctionDetailView.tsx) -/

/-- The badge condition
`auctionData.reserve_price && currentBid && currentBid >= auctionData.reserve_price`
(AuctionCard.tsx line 128, AuctionDetailView.tsx lines 107-112), with JS
truthiness on the two numbers. -/
def reserveMetBadge (reservePrice : Option Int) (currentBid : Option Int) :
    Bool :=
  match reservePrice with
  | none => false
  | some r =>
      if r = 0 then false
      else
        match currentBid with
        | none => false
        | some c => if c = 0 then false else decide (r ≤ c)

/-! ### Claim C7 -/

/-- C7: for a positive reserve price the badge shows exactly when the
supplied current price reaches the reserve; without a reserve price it
never shows; and when no valid bid exists the current price fed to the
badge is the starting-bid fallback, so the badge compares the starting
bid against the reserve. -/
theorem reserveMet_iff (r c : Int) (hr : 0 < r) :
    (reserveMetBadge (some r) (some c) = true ↔ r ≤ c) ∧
    reserveMetBadge none (some c) = false ∧
    (∀ (auctions : List ListingEvent) (events : List BidEvent) (aid : String),
      validAmountsFor aid events = [] →
      reserveMetBadge (some r)
          (some (getCurrentBid auctions (bidsByAuction events) aid))
        = decide (r ≤ getStartingBidFallback auctions aid)) := by
  have hgen : ∀ c2 : Int, reserveMetBadge (some r) (some c2) = decide (r ≤ c2) := by
    intro c2
    by_cases h0 : c2 = 0
    · subst h0
      simp [reserveMetBadge, hr.ne']
      omega
    · simp [reserveMetBadge, hr.ne', h0]
  refine ⟨?_, rfl, ?_⟩
  · rw [hgen c]
    simp
  · intro auctions events aid hempty
    have hlook : lookupInfo (bidsByAuction events) aid = none := by
      rw [lookupInfo_bidsByAuction, hempty]
      rfl
    have hcur : getCurrentBid auctions (bidsByAuction events) aid
        = getStartingBidFallback auctions aid := by
      simp [getCurrentBid, hlook]
    rw [hcur, hgen]

/-- C7 witness: reserve 1000 with current price 999 shows no badge, with
current price 1000 shows the badge, and with no bids at all the starting
bid 1000 of the concrete listing satisfies the reserve. -/
theorem reserveMet_iff_witness :
    reserveMetBadge (some 1000) (some 999) = false ∧
    reserveMetBadge (some 1000) (some 1000) = true ∧
    reserveMetBadge (some 1000)
        (some (getCurrentBid [exAuction] (bidsByAuction []) "auc1")) = true := by
  have h999 := reserveMet_iff 1000 999 (by decide)
  have h1000 := reserveMet_iff 1000 1000 (by decide)
  refine ⟨?_, h1000.1.mpr (by decide), ?_⟩
  · cases hb : reserveMetBadge (some 1000) (some 999) with
    | false => rfl
    | true => exact absurd (h999.1.mp hb) (by decide)
  · exact (h1000.2.2 [exAuction] [] "auc1" rfl).trans (by decide)

/-! ### Payment request dialog flow (SendPaymentRequestDialog) -/

/-- The states of the payment dialog (`useState<'form' | 'invoice' |
'sending' | 'sent'>`). -/
inductive PaymentStep where
  | form
  | invoice
  | sending
  | sent
deriving DecidableEq

/-- The dialog state relevant to the send flow: current step and the
`generatedInvoice` string (empty = none generated yet). -/
structure PaymentDialogState where
  step : PaymentStep
  generatedInvoice : String
deriving DecidableEq

/-- Result of the awaited `sendEncryptedMessage` call. -/
inductive SendOutcome where
  | ok
  | failed
deriving DecidableEq

/-- `handleSendPaymentRequest` (SendPaymentRequestDialog): bail out
unchanged when there is no user, no NIP-04 encryption capability, or no
generated invoice; otherwise go through `sending` and land on `sent` on
success or back on `invoice` on failure, keeping the generated invoice in
both cases (it is only cleared by the delayed reset after success). -/
def handleSendPaymentRequest (hasUser : Bool) (hasNip04Encrypt : Bool)
    (st : PaymentDialogState) (outcome : SendOutcome) : PaymentDialogState :=
  if !hasUser then st
  else if !hasNip04Encrypt then st
  else if st.generatedInvoice = "" then st
  else
    match outcome with
    | .ok => { st with step := .sent }
    | .failed => { st with step := .invoice }

/-! ### Claim C9 -/

/-- C9: when the send fails after an invoice was generated, the flow
lands on the `invoice` step — not `form` — and the generated invoice
string is unchanged, so a resend needs no new invoice. -/
theorem sendPaymentRequest_failure_rollback (st : PaymentDialogState)
    (h : st.generatedInvoice ≠ "") :
    (handleSendPaymentRequest true true st .failed).step
        = PaymentStep.invoice ∧
    (handleSendPaymentRequest true true st .failed).generatedInvoice
        = st.generatedInvoice := by
  simp [handleSendPaymentRequest, h]

/-- C9 witness: concrete failing send from the `invoice` step with a
generated invoice. -/
theorem sendPaymentRequest_failure_rollback_witness :
    (handleSendPaymentRequest true true ⟨.invoice, "lnbc10n1"⟩ .failed).step
        = PaymentStep.invoice ∧
    (handleSendPaymentRequest true true
        ⟨.invoice, "lnbc10n1"⟩ .failed).generatedInvoice = "lnbc10n1" :=
  sendPaymentRequest_failure_rollback ⟨.invoice, "lnbc10n1"⟩ (by decide)

/-! ### Bid dialog submission (BidDialog.tsx) -/

/-- Outcome of `onSubmit` (BidDialog.tsx lines 132-186): blocked without
a user, blocked with an "Invalid bid amount" toast when
`data.amount <= currentBid`, else a kind-1021 event is published. -/
inductive BidSubmitResult where
  | notLoggedIn
  | amountTooLow
  | published (kind : Nat) (amount : Int)
deriving DecidableEq

/-- The `onSubmit` decision logic of BidDialog.tsx; the published case
carries the event kind (1021) and the bid amount placed into the event
content and tags. -/
def bidDialogOnSubmit (hasUser : Bool) (currentBid : Int) (amount : Int) :
    BidSubmitResult :=
  if !hasUser then .notLoggedIn
  else if amount ≤ currentBid then .amountTooLow
  else .published 1021 amount

/-! ### Claim C10 -/

/-- C10: with a logged-in user, a kind-1021 bid event is published
exactly when the entered amount strictly exceeds the supplied current
bid; an amount equal to the current bid is rejected with the
"Invalid bid amount" outcome and nothing is published. -/
theorem bidDialog_strict_increase (currentBid amount : Int) :
    (bidDialogOnSubmit true currentBid amount
        = BidSubmitResult.published 1021 amount ↔ currentBid < amount) ∧
    (amount = currentBid →
      bidDialogOnSubmit true currentBid amount
        = BidSubmitResult.amountTooLow) := by
  constructor
  · constructor
    · intro h
      by_cases hle : amount ≤ currentBid
      · simp [bidDialogOnSubmit, hle] at h
      · omega
    · intro h
      simp [bidDialogOnSubmit, (by omega : ¬amount ≤ currentBid)]
      omega
  · intro h
    subst h
    simp [bidDialogOnSubmit]

/-- C10 witness: at a current bid of 100 sats, a bid of exactly 100 is
rejected and a bid of 101 is published. -/
theorem bidDialog_strict_increase_witness :
    bidDialogOnSubmit true 100 100 = BidSubmitResult.amountTooLow ∧
    bidDialogOnSubmit true 100 101 = BidSubmitResult.published 1021 101 :=
  ⟨(bidDialog_strict_increase 100 100).2 rfl,
    (bidDialog_strict_increase 100 101).1.mpr (by decide)⟩
